import Mathlib

/-!
Shallow embedding of the UnderDogInvites redemption pipeline
(`src/UnderDogs.py`) and verification of its specification.

The two persisted JSON tables are modelled as association lists with
insertion-order semantics (Python dicts preserve insertion order; updating
an existing key keeps its position, a fresh key is appended at the end).
The redemption handler `EnterInviteModal.on_submit` is modelled as a pure
function from the persisted state, the shared queue counter and a fault
injection point to a result record that also carries an event trace, so
that ordering and locking properties can be stated.
-/

set_option autoImplicit false

namespace UnderDogs

/-- Role granted on the first redeemed invite (line 18 of the source). -/
def FIRST_INVITE_ROLE_ID : Nat := 1334406662315966474

/-- Role granted on the second redeemed invite (line 19). -/
def SECOND_INVITE_ROLE_ID : Nat := 1334406729823424684

/-- Role allowed to generate invites (line 22). -/
def INVITE_GENERATOR_ROLE_ID : Nat := 1328552857267474495

/-- Number of codes generated for a new invite generator (line 37). -/
def NUM_GENERATED_CODES : Nat := 3

/-- Fixed prefix of generated codes (line 40). -/
def CODE_PREFIX : String := "UD-"

/-- One element of an owner's `"invites"` list: `{"code": ..., "used_by": ...}`. -/
structure CodeEntry where
  code : String
  used_by : Option String
deriving Repr, DecidableEq

/-- `UnderDogInvites.json`: owner id keyed map to the owner's code entries. -/
abbrev InvitesData := List (String × List CodeEntry)

/-- `UnderDogStats.json`: user id keyed map to the redeemed-invite count. -/
abbrev StatsData := List (String × Int)

/-- Python `key in dict`. -/
def hasKey (inv : InvitesData) (k : String) : Bool :=
  inv.any (fun p => p.1 == k)

/-- Python `stats.get(u)` on the stats dict (first occurrence of the key). -/
def getCount : StatsData → String → Option Int
  | [], _ => none
  | (k, v) :: rest, u => if k = u then some v else getCount rest u

/-- Python `stats[u] = v`: replace the value of an existing key in place,
append a fresh key at the end. -/
def setCount : StatsData → String → Int → StatsData
  | [], u, v => [(u, v)]
  | (k, w) :: rest, u, v =>
      if k = u then (k, v) :: rest else (k, w) :: setCount rest u v

/-- Inner loop of the search at lines 143-150: first entry of a list whose
`code` equals the entered code. -/
def findInList : List CodeEntry → String → Option CodeEntry
  | [], _ => none
  | e :: rest, c => if e.code = c then some e else findInList rest c

/-- Outer loop of the search at lines 142-152: first owner whose list
contains the entered code, together with that entry. -/
def findCodeEntry : InvitesData → String → Option (String × CodeEntry)
  | [], _ => none
  | (uid, entries) :: rest, c =>
      match findInList entries c with
      | some e => some (uid, e)
      | none => findCodeEntry rest c

/-- Marking loop at lines 179-182: set `used_by` of the first entry whose
`code` matches; leave everything else unchanged. -/
def markUsed : List CodeEntry → String → String → List CodeEntry
  | [], _, _ => []
  | e :: rest, c, u =>
      if e.code = c then { e with used_by := some u } :: rest
      else e :: markUsed rest c u

/-- The in-place dict mutation `current_invites[owner_id]["invites"][...]`:
apply `markUsed` to the (unique) pair whose key is the owner. -/
def markOwner : InvitesData → String → String → String → InvitesData
  | [], _, _, _ => []
  | (k, entries) :: rest, owner, c, u =>
      if k = owner then (k, markUsed entries c u) :: rest
      else (k, entries) :: markOwner rest owner c u

/-- `generate_invite_code` (lines 75-78): the fixed prefix followed by six
decimal digits drawn from the random stream `rng` at positions
`k, k+1, ..., k+5`. -/
def generate_invite_code (rng : Nat → Fin 10) (k : Nat) : String :=
  CODE_PREFIX ++ String.join ((List.range 6).map (fun i => toString ((rng (k + i)).val)))

/-- The batch of entries created for a new invite generator
(lines 252-257): `NUM_GENERATED_CODES` fresh codes, each unused. -/
def genInvites (rng : Nat → Fin 10) : List CodeEntry :=
  (List.range NUM_GENERATED_CODES).map
    (fun i => { code := generate_invite_code rng (6 * i), used_by := none })

/-- `DashboardView.open_dashboard_button` (lines 243-258), restricted to its
effect on the invites table: if the user holds the generator role and has no
entry yet, append a fresh batch of codes; otherwise change nothing. -/
def open_dashboard (userId : String) (hasGenRole : Bool) (inv : InvitesData)
    (rng : Nat → Fin 10) : InvitesData :=
  if hasGenRole && !(hasKey inv userId) then inv ++ [(userId, genInvites rng)]
  else inv

/-- Outcome of one redemption attempt, as surfaced to the user. -/
inductive Outcome where
  | notFound
  | alreadyUsed
  | selfUse
  | committed (newCount : Int)
  | internalError
deriving Repr, DecidableEq

/-- Result of the validation sequence at lines 154-176. -/
inductive Validation where
  | vNotFound
  | vAlreadyUsed
  | vSelfUse
  | vOk (owner : String) (e : CodeEntry)
deriving Repr, DecidableEq

/-- The checks of lines 154-176, in source order: existence, then usage,
then self-use. -/
def validate (inv : InvitesData) (c u : String) : Validation :=
  match findCodeEntry inv c with
  | none => .vNotFound
  | some (uid, e) =>
      if e.used_by.isSome then .vAlreadyUsed
      else if u = uid then .vSelfUse
      else .vOk uid e

/-- Observable events of one run of `on_submit`, in the order they occur.
`enterQueue`/`leaveQueue` are the increments/decrements of the shared
`queue_position` counter; `dispatchGrant` is the `member.add_roles` call. -/
inductive Step where
  | acquireLock
  | releaseLock
  | enterQueue
  | leaveQueue
  | sleep (n : Int)
  | loadFiles
  | markCodeUsed (code owner redeemer : String)
  | incrementCount (user : String) (newCount : Int)
  | dispatchGrant (roleId : Nat) (user : String)
  | saveInvitesFile
  | saveStatsFile
  | sendMsg (o : Outcome)
deriving Repr, DecidableEq

/-- Fault-injection point: the awaited / IO operation of `on_submit` at
which an exception is raised, `noFail` for a run without failure. Each
point models the corresponding source line raising. -/
inductive FailPoint where
  | noFail
  | atSleep
  | atLoad
  | atRejectSend
  | atGrant
  | atSaveInvites
  | atSaveStats
  | atSuccessSend
deriving Repr, DecidableEq

/-- Everything observable about one finished run: the two persisted files,
the shared counter, the event trace and the surfaced outcome. -/
structure RunResult where
  invitesFile : InvitesData
  statsFile : StatsData
  queuePos : Int
  trace : List Step
  outcome : Outcome
deriving Repr, DecidableEq

/-- The `except` handler at lines 215-224: reacquire the lock, decrement
the counter only when it is positive, and surface a generic failure. The
persisted files are whatever they were when the exception was raised. -/
def handleException (inv : InvitesData) (st : StatsData) (q : Int)
    (tr : List Step) : RunResult :=
  { invitesFile := inv, statsFile := st,
    queuePos := if q > 0 then q - 1 else q,
    trace := tr ++ [Step.acquireLock]
      ++ (if q > 0 then [Step.leaveQueue] else [])
      ++ [Step.releaseLock, Step.sendMsg .internalError],
    outcome := .internalError }

/-- A rejection exit (lines 154-176): decrement the counter, then send the
rejection message while still holding the lock; if that send raises, the
lock is released by unwinding and the handler runs. -/
def rejectWith (inv : InvitesData) (st : StatsData) (q1 : Int) (tr : List Step)
    (o : Outcome) (fail : FailPoint) : RunResult :=
  if fail = .atRejectSend then
    handleException inv st (q1 - 1) (tr ++ [.leaveQueue, .releaseLock])
  else
    { invitesFile := inv, statsFile := st, queuePos := q1 - 1,
      trace := tr ++ [.leaveQueue, .sendMsg o, .releaseLock],
      outcome := o }

/-- Role selection at lines 193-200: `guild.get_role` for the first/second
threshold, modelled through `roleExists`; counts of 3 or more select no
role. -/
def grantRoleFor (roleExists : Nat → Bool) (n : Int) : Option Nat :=
  if n = 1 then
    (if roleExists FIRST_INVITE_ROLE_ID then some FIRST_INVITE_ROLE_ID else none)
  else if n = 2 then
    (if roleExists SECOND_INVITE_ROLE_ID then some SECOND_INVITE_ROLE_ID else none)
  else none

/-- The commit path (lines 178-213): mark the code used, bump the count,
grant a role for counts 1 and 2, save the invites file then the stats
file, decrement the counter, release the lock, send the confirmation. -/
def commitRun (c u : String) (roleExists : Nat → Bool) (inv : InvitesData)
    (st : StatsData) (q1 : Int) (tr1 : List Step) (owner : String)
    (fail : FailPoint) : RunResult :=
  let inv1 := markOwner inv owner c u
  let n := (getCount st u).getD 0 + 1
  let st1 := setCount st u n
  let tr2 := tr1 ++ [.markCodeUsed c owner u, .incrementCount u n]
  let role := grantRoleFor roleExists n
  if fail = .atGrant ∧ role.isSome = true then
    handleException inv st q1 (tr2 ++ [.releaseLock])
  else
    let tr3 := tr2 ++ role.toList.map (fun rid => Step.dispatchGrant rid u)
    if fail = .atSaveInvites then
      handleException inv st q1 (tr3 ++ [.releaseLock])
    else
      let tr4 := tr3 ++ [.saveInvitesFile]
      if fail = .atSaveStats then
        handleException inv1 st q1 (tr4 ++ [.releaseLock])
      else
        let tr5 := tr4 ++ [.saveStatsFile, .leaveQueue, .releaseLock]
        if fail = .atSuccessSend then
          handleException inv1 st1 (q1 - 1) tr5
        else
          { invitesFile := inv1, statsFile := st1, queuePos := q1 - 1,
            trace := tr5 ++ [.sendMsg (.committed n)],
            outcome := .committed n }

/-- `EnterInviteModal.on_submit` (lines 104-224) as one run over the
persisted state `inv`/`st` with the shared counter at `q`. The handler
reloads from disk inside the lock; since this process is the only writer,
the reloaded data is exactly `inv`/`st`. -/
def on_submit (c u : String) (roleExists : Nat → Bool) (inv : InvitesData)
    (st : StatsData) (q : Int) (fail : FailPoint) : RunResult :=
  let q1 := q + 1
  let tr0 : List Step := [.acquireLock, .enterQueue, .releaseLock, .sleep q1]
  if fail = .atSleep then handleException inv st q1 tr0
  else
    let tr1 := tr0 ++ [.acquireLock, .loadFiles]
    if fail = .atLoad then handleException inv st q1 (tr1 ++ [.releaseLock])
    else
      match validate inv c u with
      | .vNotFound => rejectWith inv st q1 tr1 .notFound fail
      | .vAlreadyUsed => rejectWith inv st q1 tr1 .alreadyUsed fail
      | .vSelfUse => rejectWith inv st q1 tr1 .selfUse fail
      | .vOk owner _ => commitRun c u roleExists inv st q1 tr1 owner fail

/-- Role grants extracted from a trace, in dispatch order. -/
def grantsOf (tr : List Step) : List (Nat × String) :=
  tr.filterMap (fun s =>
    match s with
    | .dispatchGrant rid u => some (rid, u)
    | _ => none)

/-- Number of occurrences of a step in a trace. -/
def countOcc (tr : List Step) (s : Step) : Nat :=
  (tr.filter (fun x => x == s)).length

/-- `true` when some `dispatchGrant` occurs at a point where the number of
lock acquisitions so far strictly exceeds the number of releases. -/
def grantWhileLockedAux : List Step → Int → Bool
  | [], _ => false
  | .acquireLock :: rest, d => grantWhileLockedAux rest (d + 1)
  | .releaseLock :: rest, d => grantWhileLockedAux rest (d - 1)
  | .dispatchGrant _ _ :: rest, d => d > 0 || grantWhileLockedAux rest d
  | _ :: rest, d => grantWhileLockedAux rest d

/-- `true` when some `dispatchGrant` occurs while the lock is held. -/
def grantWhileLocked (tr : List Step) : Bool :=
  grantWhileLockedAux tr 0

/-- `true` when some `dispatchGrant` is followed, later in the trace, by a
write of one of the persisted files. -/
def grantBeforePersist : List Step → Bool
  | [] => false
  | .dispatchGrant _ _ :: rest =>
      rest.any (fun s => s == .saveInvitesFile || s == .saveStatsFile)
      || grantBeforePersist rest
  | _ :: rest => grantBeforePersist rest

/-- All code strings of the ledger, across all owners. -/
def allCodes (inv : InvitesData) : List String :=
  (inv.map (fun p => p.2.map (fun e => e.code))).flatten

/-- A concrete one-owner ledger used for concrete runs. -/
def sampleInvites : InvitesData := [("A", [{ code := "UD-111111", used_by := none }])]

/-- Environment in which every role id resolves to a role. -/
def rhoAll : Nat → Bool := fun _ => true

/-- A degenerate random stream: every draw is the digit 0. -/
def rngZero : Nat → Fin 10 := fun _ => 0

section Lemmas

variable {inv : InvitesData} {st : StatsData} {c u : String}

theorem findInList_eq_none {es : List CodeEntry}
    (h : ∀ e ∈ es, e.code ≠ c) : findInList es c = none := by
  induction es with
  | nil => rfl
  | cons e rest ih =>
    simp only [findInList]
    rw [if_neg (h e (by simp))]
    exact ih (fun x hx => h x (by simp [hx]))

theorem findCodeEntry_eq_none
    (h : ∀ p ∈ inv, ∀ e ∈ p.2, e.code ≠ c) : findCodeEntry inv c = none := by
  induction inv with
  | nil => rfl
  | cons p rest ih =>
    obtain ⟨uid, entries⟩ := p
    simp only [findCodeEntry]
    rw [findInList_eq_none (h (uid, entries) (by simp))]
    exact ih (fun q hq => h q (by simp [hq]))

theorem validate_notFound (h : ∀ p ∈ inv, ∀ e ∈ p.2, e.code ≠ c) :
    validate inv c u = .vNotFound := by
  unfold validate
  rw [findCodeEntry_eq_none h]

theorem validate_alreadyUsed {uid : String} {e : CodeEntry}
    (h : findCodeEntry inv c = some (uid, e)) (hu : e.used_by.isSome = true) :
    validate inv c u = .vAlreadyUsed := by
  unfold validate
  rw [h]
  simp [hu]

theorem validate_selfUse {uid : String} {e : CodeEntry}
    (h : findCodeEntry inv c = some (uid, e)) (hu : e.used_by = none)
    (heq : u = uid) : validate inv c u = .vSelfUse := by
  unfold validate
  rw [h]
  simp [hu, heq]

theorem validate_ok {uid : String} {e : CodeEntry}
    (h : findCodeEntry inv c = some (uid, e)) (hu : e.used_by = none)
    (hne : u ≠ uid) : validate inv c u = .vOk uid e := by
  unfold validate
  rw [h]
  simp [hu, hne]

theorem on_submit_noFail_eq {c u : String} {ρ : Nat → Bool} {inv : InvitesData}
    {st : StatsData} {q : Int} :
    on_submit c u ρ inv st q .noFail =
      match validate inv c u with
      | .vNotFound =>
          { invitesFile := inv, statsFile := st, queuePos := q,
            trace := [.acquireLock, .enterQueue, .releaseLock, .sleep (q + 1),
              .acquireLock, .loadFiles, .leaveQueue, .sendMsg .notFound, .releaseLock],
            outcome := .notFound }
      | .vAlreadyUsed =>
          { invitesFile := inv, statsFile := st, queuePos := q,
            trace := [.acquireLock, .enterQueue, .releaseLock, .sleep (q + 1),
              .acquireLock, .loadFiles, .leaveQueue, .sendMsg .alreadyUsed, .releaseLock],
            outcome := .alreadyUsed }
      | .vSelfUse =>
          { invitesFile := inv, statsFile := st, queuePos := q,
            trace := [.acquireLock, .enterQueue, .releaseLock, .sleep (q + 1),
              .acquireLock, .loadFiles, .leaveQueue, .sendMsg .selfUse, .releaseLock],
            outcome := .selfUse }
      | .vOk owner _ =>
          { invitesFile := markOwner inv owner c u,
            statsFile := setCount st u ((getCount st u).getD 0 + 1),
            queuePos := q,
            trace := [.acquireLock, .enterQueue, .releaseLock, .sleep (q + 1),
                .acquireLock, .loadFiles, .markCodeUsed c owner u,
                .incrementCount u ((getCount st u).getD 0 + 1)]
              ++ (grantRoleFor ρ ((getCount st u).getD 0 + 1)).toList.map
                  (fun rid => Step.dispatchGrant rid u)
              ++ [.saveInvitesFile, .saveStatsFile, .leaveQueue, .releaseLock,
                .sendMsg (.committed ((getCount st u).getD 0 + 1))],
            outcome := .committed ((getCount st u).getD 0 + 1) } := by
  cases hv : validate inv c u <;>
    simp [on_submit, rejectWith, commitRun, hv]

end Lemmas

/-- A two-code ledger: owner `A` holds the unused `UD-111111` and the
already-used `UD-222222`. -/
def invC3 : InvitesData :=
  [("A", [{ code := "UD-111111", used_by := none },
          { code := "UD-222222", used_by := some "X" }])]

/-- C3: on a redemption attempt the validation runs in source order against
the reloaded ledger: a code present nowhere gives `NotFound`; a found code
whose `used_by` is set gives `AlreadyUsed` (even when the redeemer owns the
code); a found unused code owned by the redeemer gives `SelfUse`; otherwise
the attempt commits with the redeemer's incremented count. Rejections leave
both persisted tables unchanged. -/
theorem C3_validation_order (inv : InvitesData) (st : StatsData) (c u : String)
    (ρ : Nat → Bool) (q : Int) :
    ((∀ p ∈ inv, ∀ e ∈ p.2, e.code ≠ c) →
      (on_submit c u ρ inv st q .noFail).outcome = .notFound ∧
      (on_submit c u ρ inv st q .noFail).invitesFile = inv ∧
      (on_submit c u ρ inv st q .noFail).statsFile = st) ∧
    (∀ uid e, findCodeEntry inv c = some (uid, e) → e.used_by.isSome = true →
      (on_submit c u ρ inv st q .noFail).outcome = .alreadyUsed ∧
      (on_submit c u ρ inv st q .noFail).invitesFile = inv ∧
      (on_submit c u ρ inv st q .noFail).statsFile = st) ∧
    (∀ uid e, findCodeEntry inv c = some (uid, e) → e.used_by = none → u = uid →
      (on_submit c u ρ inv st q .noFail).outcome = .selfUse ∧
      (on_submit c u ρ inv st q .noFail).invitesFile = inv ∧
      (on_submit c u ρ inv st q .noFail).statsFile = st) ∧
    (∀ uid e, findCodeEntry inv c = some (uid, e) → e.used_by = none → u ≠ uid →
      (on_submit c u ρ inv st q .noFail).outcome
        = .committed ((getCount st u).getD 0 + 1)) := by
  refine ⟨fun h => ?_, fun uid e hf hu => ?_, fun uid e hf hu heq => ?_,
    fun uid e hf hu hne => ?_⟩
  · rw [on_submit_noFail_eq, validate_notFound h]
    exact ⟨rfl, rfl, rfl⟩
  · rw [on_submit_noFail_eq, validate_alreadyUsed hf hu]
    exact ⟨rfl, rfl, rfl⟩
  · rw [on_submit_noFail_eq, validate_selfUse hf hu heq]
    exact ⟨rfl, rfl, rfl⟩
  · rw [on_submit_noFail_eq, validate_ok hf hu hne]

/-- C3 witness: the four validation outcomes on a concrete ledger, including
`AlreadyUsed` taking precedence over `SelfUse` for the owner of a used
code. -/
theorem C3_validation_order_witness :
    (on_submit "UD-999999" "B" rhoAll invC3 [] 0 .noFail).outcome = .notFound ∧
    (on_submit "UD-222222" "A" rhoAll invC3 [] 0 .noFail).outcome = .alreadyUsed ∧
    (on_submit "UD-111111" "A" rhoAll invC3 [] 0 .noFail).outcome = .selfUse ∧
    (on_submit "UD-111111" "B" rhoAll invC3 [] 0 .noFail).outcome = .committed 1 := by
  refine ⟨((C3_validation_order invC3 [] "UD-999999" "B" rhoAll 0).1 (by decide)).1,
    ((C3_validation_order invC3 [] "UD-222222" "A" rhoAll 0).2.1 "A"
      { code := "UD-222222", used_by := some "X" } (by decide) (by decide)).1,
    ((C3_validation_order invC3 [] "UD-111111" "A" rhoAll 0).2.2.1 "A"
      { code := "UD-111111", used_by := none } (by decide) (by decide) rfl).1,
    (C3_validation_order invC3 [] "UD-111111" "B" rhoAll 0).2.2.2 "A"
      { code := "UD-111111", used_by := none } (by decide) (by decide) (by decide)⟩

/-- `true` exactly on the three user-facing rejections. -/
def isRejected : Validation → Bool
  | .vOk _ _ => false
  | _ => true

/-- C1 (amended): persistence is all-or-nothing per file, not per attempt.
Every rejection leaves both files unchanged, whatever else fails; every
internal failure before the first file write leaves both files unchanged;
but an internal failure between the invites write and the stats write
persists the invites mutation while the stats file keeps its old
contents. -/
theorem C1_per_file_atomicity (inv : InvitesData) (st : StatsData)
    (c u : String) (ρ : Nat → Bool) (q : Int) (fail : FailPoint) :
    (isRejected (validate inv c u) = true →
      (on_submit c u ρ inv st q fail).invitesFile = inv ∧
      (on_submit c u ρ inv st q fail).statsFile = st) ∧
    ((fail = .atSleep ∨ fail = .atLoad ∨ fail = .atSaveInvites) →
      (on_submit c u ρ inv st q fail).invitesFile = inv ∧
      (on_submit c u ρ inv st q fail).statsFile = st) ∧
    (fail = .atGrant →
      ((on_submit c u ρ inv st q fail).invitesFile = inv ∧
        (on_submit c u ρ inv st q fail).statsFile = st) ∨
      (∃ owner e, validate inv c u = .vOk owner e ∧
        (on_submit c u ρ inv st q fail).invitesFile = markOwner inv owner c u ∧
        (on_submit c u ρ inv st q fail).statsFile
          = setCount st u ((getCount st u).getD 0 + 1))) ∧
    (∀ owner e, validate inv c u = .vOk owner e → fail = .atSaveStats →
      (on_submit c u ρ inv st q fail).outcome = .internalError ∧
      (on_submit c u ρ inv st q fail).invitesFile = markOwner inv owner c u ∧
      (on_submit c u ρ inv st q fail).statsFile = st) := by
  refine ⟨fun hrej => ?_, fun hpre => ?_, fun hg => ?_, fun owner e hv hf => ?_⟩
  · cases hv : validate inv c u <;>
      simp [hv, isRejected] at hrej ⊢ <;>
      cases fail <;>
      simp [on_submit, rejectWith, handleException, hv]
  · cases hv : validate inv c u <;>
      rcases hpre with h | h | h <;>
      subst h <;>
      simp [on_submit, rejectWith, commitRun, handleException, hv]
  · subst hg
    cases hv : validate inv c u
    · exact Or.inl (by simp [on_submit, rejectWith, handleException, hv])
    · exact Or.inl (by simp [on_submit, rejectWith, handleException, hv])
    · exact Or.inl (by simp [on_submit, rejectWith, handleException, hv])
    · rename_i owner e
      by_cases hr : (grantRoleFor ρ ((getCount st u).getD 0 + 1)).isSome = true
      · exact Or.inl (by simp [on_submit, commitRun, handleException, hv, hr])
      · exact Or.inr ⟨owner, e, rfl,
          by simp [on_submit, commitRun, handleException, hv, hr]⟩
  · subst hf
    simp [on_submit, commitRun, handleException, hv]

/-- C1 witness: a rejected concrete attempt changes neither file, a
pre-write failure changes neither file, and a failure between the two
writes persists the invites mutation only. -/
theorem C1_per_file_atomicity_witness :
    ((on_submit "UD-111111" "A" rhoAll sampleInvites [] 0 .noFail).invitesFile
        = sampleInvites ∧
      (on_submit "UD-111111" "A" rhoAll sampleInvites [] 0 .noFail).statsFile
        = ([] : StatsData)) ∧
    ((on_submit "UD-111111" "B" rhoAll sampleInvites [] 0 .atSaveInvites).invitesFile
        = sampleInvites ∧
      (on_submit "UD-111111" "B" rhoAll sampleInvites [] 0 .atSaveInvites).statsFile
        = ([] : StatsData)) ∧
    ((on_submit "UD-111111" "B" rhoAll sampleInvites [] 0 .atSaveStats).outcome
        = .internalError ∧
      (on_submit "UD-111111" "B" rhoAll sampleInvites [] 0 .atSaveStats).invitesFile
        = markOwner sampleInvites "A" "UD-111111" "B" ∧
      (on_submit "UD-111111" "B" rhoAll sampleInvites [] 0 .atSaveStats).statsFile
        = ([] : StatsData)) := by
  refine ⟨(C1_per_file_atomicity sampleInvites [] "UD-111111" "A" rhoAll 0
      .noFail).1 (by decide),
    (C1_per_file_atomicity sampleInvites [] "UD-111111" "B" rhoAll 0
      .atSaveInvites).2.1 (by decide),
    (C1_per_file_atomicity sampleInvites [] "UD-111111" "B" rhoAll 0
      .atSaveStats).2.2.2 "A" { code := "UD-111111", used_by := none }
      (by decide) rfl⟩

/-- C1 counterexample: on a concrete attempt that fails between the two
file writes, the invites table is persisted with the attempt's mutation
while the stats table is left untouched, so persistence is not
all-or-nothing across the two tables. -/
theorem C1_partial_persist_counterexample :
    (on_submit "UD-111111" "B" rhoAll sampleInvites [] 0 .atSaveStats).outcome
        = .internalError ∧
    (on_submit "UD-111111" "B" rhoAll sampleInvites [] 0 .atSaveStats).invitesFile
        ≠ sampleInvites ∧
    (on_submit "UD-111111" "B" rhoAll sampleInvites [] 0 .atSaveStats).statsFile
        = ([] : StatsData) ∧
    (([] : StatsData) ≠ setCount [] "B" 1) := by
  decide

/-- C2 (amended): on every successful redemption the steps occur in this
order: mark the code's `usedBy`, increment the redeemer's count, dispatch
the threshold capability event when the new count equals 1 or 2 — while
the lock is still held and before anything is persisted — then write the
invites file, write the stats file, release the ticket (still inside the
lock), release the lock, and send the confirmation. -/
theorem C2_commit_order (inv : InvitesData) (st : StatsData) (c u : String)
    (ρ : Nat → Bool) (q : Int) (owner : String) (e : CodeEntry)
    (h : validate inv c u = .vOk owner e) :
    (on_submit c u ρ inv st q .noFail).trace =
      [.acquireLock, .enterQueue, .releaseLock, .sleep (q + 1),
        .acquireLock, .loadFiles, .markCodeUsed c owner u,
        .incrementCount u ((getCount st u).getD 0 + 1)]
      ++ (grantRoleFor ρ ((getCount st u).getD 0 + 1)).toList.map
          (fun rid => Step.dispatchGrant rid u)
      ++ [.saveInvitesFile, .saveStatsFile, .leaveQueue, .releaseLock,
        .sendMsg (.committed ((getCount st u).getD 0 + 1))] := by
  rw [on_submit_noFail_eq, h]

/-- C2 witness: the concrete trace of a successful first redemption,
with the tier-1 grant dispatched inside the lock before the file
writes. -/
theorem C2_commit_order_witness :
    (on_submit "UD-111111" "B" rhoAll sampleInvites [] 0 .noFail).trace =
      [.acquireLock, .enterQueue, .releaseLock, .sleep 1,
        .acquireLock, .loadFiles, .markCodeUsed "UD-111111" "A" "B",
        .incrementCount "B" 1, .dispatchGrant FIRST_INVITE_ROLE_ID "B",
        .saveInvitesFile, .saveStatsFile, .leaveQueue, .releaseLock,
        .sendMsg (.committed 1)] := by
  have h := C2_commit_order sampleInvites [] "UD-111111" "B" rhoAll 0 "A"
    { code := "UD-111111", used_by := none } (by decide)
  simpa using h

/-- C2 counterexample: on a concrete successful redemption, the threshold
capability event is dispatched while the file lock is held and before
either persisted file is written. -/
theorem C2_grant_order_counterexample :
    grantWhileLocked (on_submit "UD-111111" "B" rhoAll sampleInvites [] 0 .noFail).trace
        = true ∧
    grantBeforePersist (on_submit "UD-111111" "B" rhoAll sampleInvites [] 0 .noFail).trace
        = true ∧
    (on_submit "UD-111111" "B" rhoAll sampleInvites [] 0 .noFail).outcome
        = .committed 1 := by
  decide

theorem countOcc_nil (s : Step) : countOcc [] s = 0 := rfl

theorem countOcc_cons (x : Step) (tr : List Step) (s : Step) :
    countOcc (x :: tr) s = (if x = s then 1 else 0) + countOcc tr s := by
  by_cases h : x = s
  · simp [countOcc, List.filter_cons, h]
    omega
  · simp [countOcc, List.filter_cons, h]

theorem countOcc_append (a b : List Step) (s : Step) :
    countOcc (a ++ b) s = countOcc a s + countOcc b s := by
  simp [countOcc, List.filter_append]

theorem countOcc_grantSteps (role : Option Nat) (u : String) (s : Step)
    (h : ∀ rid u', s ≠ Step.dispatchGrant rid u') :
    countOcc (role.toList.map (fun rid => Step.dispatchGrant rid u)) s = 0 := by
  cases role with
  | none => rfl
  | some rid =>
    have hb : (Step.dispatchGrant rid u == s) = false :=
      beq_eq_false_iff_ne.mpr (fun hx => h rid u hx.symm)
    simp [countOcc, List.filter_cons, hb]

/-- The failure points that are reached only after this attempt has
already decremented the shared counter: a raising rejection message, or a
raising success message after a commit. -/
def failAfterLeave (fail : FailPoint) (v : Validation) : Bool :=
  match fail, v with
  | .atRejectSend, .vOk _ _ => false
  | .atRejectSend, _ => true
  | .atSuccessSend, .vOk _ _ => true
  | _, _ => false

/-- C4 (amended): every attempt increments the shared counter exactly once
and decrements it exactly once — except that an attempt whose final result
message raises after the decrement has already happened (a failing
rejection notice, or a failing success notice after the commit) runs the
exception handler's extra decrement whenever the counter is still
positive, so such an attempt decrements the counter twice. -/
theorem C4_ticket_balance (inv : InvitesData) (st : StatsData) (c u : String)
    (ρ : Nat → Bool) (q : Int) (fail : FailPoint) (hq : 0 ≤ q) :
    countOcc (on_submit c u ρ inv st q fail).trace .enterQueue = 1 ∧
    countOcc (on_submit c u ρ inv st q fail).trace .leaveQueue =
      (if failAfterLeave fail (validate inv c u) = true ∧ 0 < q then 2 else 1) := by
  have hq1 : (0:Int) < q + 1 := by omega
  by_cases hq0 : (0:Int) < q <;>
    cases hv : validate inv c u <;> cases fail <;>
      simp [on_submit, rejectWith, commitRun, handleException, hv, failAfterLeave,
        hq1, hq0, countOcc_append, countOcc_cons, countOcc_nil, countOcc_grantSteps] <;>
      (try (split <;>
        simp [countOcc_append, countOcc_cons, countOcc_nil, countOcc_grantSteps]))

/-- C4 witness: a concrete failure-free commit increments the shared
counter exactly once and decrements it exactly once. -/
theorem C4_ticket_balance_witness :
    (0:Int) ≤ 0 ∧
    countOcc (on_submit "UD-111111" "B" rhoAll sampleInvites [] 0 .noFail).trace
      .enterQueue = 1 ∧
    countOcc (on_submit "UD-111111" "B" rhoAll sampleInvites [] 0 .noFail).trace
      .leaveQueue = 1 := by
  refine ⟨le_refl 0, ?_, ?_⟩
  · exact (C4_ticket_balance sampleInvites [] "UD-111111" "B" rhoAll 0 .noFail
      (le_refl 0)).1
  · have h := (C4_ticket_balance sampleInvites [] "UD-111111" "B" rhoAll 0 .noFail
      (le_refl 0)).2
    simpa using h

/-- C4 counterexample: a concrete successful commit whose final follow-up
message raises, started while one other attempt is outstanding
(counter at 1), increments the shared counter once but decrements it
twice. -/
theorem C4_double_decrement_counterexample :
    countOcc (on_submit "UD-111111" "B" rhoAll sampleInvites [] 1 .atSuccessSend).trace
        .enterQueue = 1 ∧
    countOcc (on_submit "UD-111111" "B" rhoAll sampleInvites [] 1 .atSuccessSend).trace
        .leaveQueue = 2 := by
  decide

/-- Well-formedness of a generated code: the three prefix characters
`UD-` followed by exactly six decimal digits. -/
def isValidCode (s : String) : Bool :=
  s.data.take 3 == ['U', 'D', '-'] && s.data.length == 9
    && (s.data.drop 3).all Char.isDigit

theorem toString_fin10_data (d : Fin 10) :
    (toString d.val).data = [Nat.digitChar d.val] := by
  revert d
  decide

theorem digitChar_fin10_isDigit (d : Fin 10) :
    (Nat.digitChar d.val).isDigit = true := by
  revert d
  decide

theorem foldl_append_data (l : List String) (init : String) :
    (l.foldl (· ++ ·) init).data = init.data ++ (l.map String.data).flatten := by
  induction l generalizing init with
  | nil => simp
  | cons a rest ih => simp [List.foldl_cons, ih, String.data_append]

theorem join_data (l : List String) :
    (String.join l).data = (l.map String.data).flatten := by
  have h := foldl_append_data l ""
  simpa [String.join] using h

theorem flatten_singleton_map {α β : Type} (f : α → β) (l : List α) :
    (l.map (fun a => [f a])).flatten = l.map f := by
  induction l with
  | nil => rfl
  | cons a rest ih => simp [ih]

theorem generate_invite_code_data (rng : Nat → Fin 10) (k : Nat) :
    (generate_invite_code rng k).data =
      'U' :: 'D' :: '-' :: (List.range 6).map (fun i => Nat.digitChar (rng (k + i)).val) := by
  unfold generate_invite_code
  rw [String.data_append, join_data]
  have h1 : CODE_PREFIX.data = ['U', 'D', '-'] := rfl
  rw [h1, List.map_map]
  have h2 : (String.data ∘ fun i => toString ((rng (k + i)).val))
      = fun i => [Nat.digitChar ((rng (k + i)).val)] := by
    funext i
    exact toString_fin10_data (rng (k + i))
  rw [h2, flatten_singleton_map]
  rfl

theorem generate_invite_code_valid (rng : Nat → Fin 10) (k : Nat) :
    isValidCode (generate_invite_code rng k) = true := by
  unfold isValidCode
  rw [generate_invite_code_data]
  simp [List.all_eq_true]
  intro i _
  exact digitChar_fin10_isDigit (rng (k + i))

/-- C8: when an eligible user opens the dashboard for the first time
(their id absent from the invites ledger), exactly `NUM_GENERATED_CODES`
(3) codes are created and appended for them, each of the form `UD-`
followed by exactly six decimal digits and with `used_by` unset, leaving
every other owner's entries untouched; on any later request by the same
user the ledger is returned unchanged. -/
theorem C8_generation (inv : InvitesData) (u : String) (rng : Nat → Fin 10) :
    (hasKey inv u = false →
      open_dashboard u true inv rng = inv ++ [(u, genInvites rng)] ∧
      (genInvites rng).length = NUM_GENERATED_CODES ∧
      ∀ e ∈ genInvites rng, e.used_by = none ∧ isValidCode e.code = true) ∧
    (hasKey inv u = true → open_dashboard u true inv rng = inv) := by
  constructor
  · intro h
    refine ⟨by simp [open_dashboard, h], by simp [genInvites], ?_⟩
    intro e he
    simp only [genInvites, List.mem_map, List.mem_range] at he
    obtain ⟨i, _, rfl⟩ := he
    exact ⟨rfl, generate_invite_code_valid rng (6 * i)⟩
  · intro h
    simp [open_dashboard, h]

/-- C8 witness: a first request by `A` on the empty ledger creates the
batch with three well-formed unused codes, and a second request changes
nothing. -/
theorem C8_generation_witness :
    (open_dashboard "A" true [] (fun _ => (3 : Fin 10))
        = [("A", genInvites (fun _ => (3 : Fin 10)))] ∧
      (genInvites (fun _ => (3 : Fin 10))).length = NUM_GENERATED_CODES ∧
      ∀ e ∈ genInvites (fun _ => (3 : Fin 10)),
        e.used_by = none ∧ isValidCode e.code = true) ∧
    open_dashboard "A" true [("A", genInvites (fun _ => (3 : Fin 10)))]
        (fun _ => (3 : Fin 10))
      = [("A", genInvites (fun _ => (3 : Fin 10)))] := by
  constructor
  · exact (C8_generation [] "A" (fun _ => (3 : Fin 10))).1 (by decide)
  · exact (C8_generation [("A", genInvites (fun _ => (3 : Fin 10)))] "A"
      (fun _ => (3 : Fin 10))).2 (by decide)

/-- C6 (amended): the generated batch does not depend on the ledger in any
way — generation never checks new codes against existing ones — so code
values are only probabilistically unique, and a generation operation can
leave the ledger with duplicate code values. -/
theorem C6_codes_not_checked :
    (∀ (inv1 inv2 : InvitesData) (u : String) (rng : Nat → Fin 10),
      hasKey inv1 u = false → hasKey inv2 u = false →
      (open_dashboard u true inv1 rng).drop inv1.length
        = (open_dashboard u true inv2 rng).drop inv2.length) ∧
    (∃ (inv : InvitesData) (rng : Nat → Fin 10) (u : String),
      hasKey inv u = false ∧
      ¬ (allCodes (open_dashboard u true inv rng)).Nodup) := by
  constructor
  · intro inv1 inv2 u rng h1 h2
    simp [open_dashboard, h1, h2]
  · exact ⟨[("A", [{ code := "UD-000000", used_by := none }])], rngZero, "B",
      by decide, by decide⟩

/-- C6 witness: the generated batch appended for `B` is the same whether
the ledger is empty or already holds `A`'s codes. -/
theorem C6_codes_not_checked_witness :
    (open_dashboard "B" true [] rngZero).drop 0
      = (open_dashboard "B" true sampleInvites rngZero).drop sampleInvites.length := by
  have h := C6_codes_not_checked.1 [] sampleInvites "B" rngZero (by decide) (by decide)
  simpa using h

/-- C6 counterexample: generated codes are never checked against the
ledger, so with an adversarial random stream a generation operation
produces code values that already exist (and even three identical fresh
codes), violating ledger-wide uniqueness. -/
theorem C6_duplicate_codes_counterexample :
    ¬ (allCodes (open_dashboard "B" true
        [("A", [{ code := "UD-000000", used_by := none }])] rngZero)).Nodup := by
  decide

theorem grantsOf_append (a b : List Step) :
    grantsOf (a ++ b) = grantsOf a ++ grantsOf b := by
  simp [grantsOf, List.filterMap_append]

/-- C7: in an environment where both threshold roles exist, a successful
redemption dispatches the tier-1 grant exactly when the new count equals 1
and the tier-2 grant exactly when it equals 2, dispatches nothing when the
new count is 3 or more, and a rejected attempt dispatches no grant at
all. -/
theorem C7_threshold_grants (inv : InvitesData) (st : StatsData) (c u : String)
    (ρ : Nat → Bool) (q : Int)
    (h1 : ρ FIRST_INVITE_ROLE_ID = true) (h2 : ρ SECOND_INVITE_ROLE_ID = true) :
    (∀ n : Int, (on_submit c u ρ inv st q .noFail).outcome = .committed n →
      grantsOf (on_submit c u ρ inv st q .noFail).trace =
        (if n = 1 then [(FIRST_INVITE_ROLE_ID, u)]
          else if n = 2 then [(SECOND_INVITE_ROLE_ID, u)] else [])) ∧
    (isRejected (validate inv c u) = true →
      grantsOf (on_submit c u ρ inv st q .noFail).trace = []) := by
  constructor
  · intro n hn
    rw [on_submit_noFail_eq] at hn ⊢
    cases hv : validate inv c u <;> rw [hv] at hn <;> simp at hn
    obtain rfl := hn.symm
    rw [grantsOf_append, grantsOf_append]
    by_cases hc1 : (getCount st u).getD 0 + 1 = (1 : Int)
    · simp [grantsOf, grantRoleFor, hc1, h1]
    · by_cases hc2 : (getCount st u).getD 0 + 1 = (2 : Int)
      · simp [grantsOf, grantRoleFor, hc1, hc2, h2]
      · simp [grantsOf, grantRoleFor, hc1, hc2]
  · intro hrej
    rw [on_submit_noFail_eq]
    cases hv : validate inv c u <;> rw [hv] at hrej <;>
      simp [isRejected] at hrej <;>
      simp [grantsOf]

/-- C7 witness: on a concrete ledger a first redemption dispatches exactly
the tier-1 grant, and an attempt on a used code dispatches nothing. -/
theorem C7_threshold_grants_witness :
    grantsOf (on_submit "UD-111111" "B" rhoAll invC3 [] 0 .noFail).trace
        = [(FIRST_INVITE_ROLE_ID, "B")] ∧
    grantsOf (on_submit "UD-222222" "C" rhoAll invC3 [] 0 .noFail).trace = [] := by
  constructor
  · have h := (C7_threshold_grants invC3 [] "UD-111111" "B" rhoAll 0 rfl rfl).1 1
      (by decide)
    simpa using h
  · exact (C7_threshold_grants invC3 [] "UD-222222" "C" rhoAll 0 rfl rfl).2 (by decide)

section StructureLemmas

variable {inv : InvitesData} {st : StatsData} {c u : String}

theorem findInList_decomp {es : List CodeEntry} {e : CodeEntry}
    (h : findInList es c = some e) :
    ∃ epre epost, es = epre ++ e :: epost ∧ (∀ x ∈ epre, x.code ≠ c) ∧
      e.code = c ∧ ∀ v, markUsed es c v = epre ++ { e with used_by := some v } :: epost := by
  induction es with
  | nil => exact absurd h (by simp [findInList])
  | cons x rest ih =>
    by_cases hx : x.code = c
    · rw [findInList, if_pos hx] at h
      obtain rfl := Option.some_injective _ h
      exact ⟨[], rest, rfl, by simp, hx, fun v => by simp [markUsed, hx]⟩
    · rw [findInList, if_neg hx] at h
      obtain ⟨epre, epost, heq, hpre, hc, hmark⟩ := ih h
      refine ⟨x :: epre, epost, by simp [heq], ?_, hc, fun v => ?_⟩
      · intro y hy
        rcases List.mem_cons.mp hy with rfl | hy'
        · exact hx
        · exact hpre y hy'
      · simp [markUsed, hx, hmark v]

theorem findCodeEntry_decomp {uid : String} {e : CodeEntry}
    (h : findCodeEntry inv c = some (uid, e)) :
    ∃ pre es post, inv = pre ++ (uid, es) :: post ∧
      (∀ p ∈ pre, findInList p.2 c = none) ∧ findInList es c = some e := by
  induction inv with
  | nil => exact absurd h (by simp [findCodeEntry])
  | cons p rest ih =>
    obtain ⟨k, entries⟩ := p
    rw [findCodeEntry] at h
    cases hf : findInList entries c with
    | some e' =>
      rw [hf] at h
      obtain ⟨rfl, rfl⟩ : k = uid ∧ e' = e := by
        have := Option.some_injective _ h
        exact ⟨congrArg Prod.fst this, congrArg Prod.snd this⟩
      exact ⟨[], entries, rest, rfl, by simp, hf⟩
    | none =>
      rw [hf] at h
      obtain ⟨pre, es, post, heq, hpre, hes⟩ := ih h
      refine ⟨(k, entries) :: pre, es, post, by simp [heq], ?_, hes⟩
      intro p hp
      rcases List.mem_cons.mp hp with rfl | hp'
      · exact hf
      · exact hpre p hp'

theorem markOwner_of_pre {pre post : InvitesData} {owner : String}
    {es : List CodeEntry} (v : String)
    (h : ∀ p ∈ pre, p.1 ≠ owner) :
    markOwner (pre ++ (owner, es) :: post) owner c v
      = pre ++ (owner, markUsed es c v) :: post := by
  induction pre with
  | nil => simp [markOwner]
  | cons p rest ih =>
    obtain ⟨k, entries⟩ := p
    have hk : k ≠ owner := h (k, entries) (by simp)
    simp only [List.cons_append, markOwner, if_neg hk, List.append_eq]
    rw [ih (fun p hp => h p (List.mem_cons_of_mem _ hp))]

theorem findInList_append_of_none {epre epost : List CodeEntry} {x : CodeEntry}
    (hpre : ∀ y ∈ epre, y.code ≠ c) (hx : x.code = c) :
    findInList (epre ++ x :: epost) c = some x := by
  induction epre with
  | nil => simp [findInList, hx]
  | cons y rest ih =>
    have hy : y.code ≠ c := hpre y (by simp)
    simp only [List.cons_append, findInList, if_neg hy]
    exact ih (fun z hz => hpre z (List.mem_cons_of_mem _ hz))

theorem findCodeEntry_append_of_none {pre post : InvitesData} {uid : String}
    {es : List CodeEntry} {m : CodeEntry}
    (hpre : ∀ p ∈ pre, findInList p.2 c = none) (hes : findInList es c = some m) :
    findCodeEntry (pre ++ (uid, es) :: post) c = some (uid, m) := by
  induction pre with
  | nil => simp [findCodeEntry, hes]
  | cons p rest ih =>
    obtain ⟨k, entries⟩ := p
    have hk : findInList entries c = none := hpre (k, entries) (by simp)
    simp only [List.cons_append, findCodeEntry, hk]
    exact ih (fun p hp => hpre p (List.mem_cons_of_mem _ hp))

theorem findCodeEntry_markOwner {uid : String} {e : CodeEntry} (v : String)
    (hk : (inv.map Prod.fst).Nodup)
    (h : findCodeEntry inv c = some (uid, e)) :
    findCodeEntry (markOwner inv uid c v) c
      = some (uid, { e with used_by := some v }) := by
  obtain ⟨pre, es, post, rfl, hpre, hes⟩ := findCodeEntry_decomp h
  have hprek : ∀ p ∈ pre, p.1 ≠ uid := by
    intro p hp
    have h1 : (pre.map Prod.fst).Nodup ∧ uid ∉ pre.map Prod.fst := by
      rw [List.map_append] at hk
      have h2 := List.Nodup.of_append_left hk
      have h3 := List.disjoint_of_nodup_append hk
      exact ⟨h2, fun hmem => h3 hmem (by simp)⟩
    exact fun he => h1.2 (he ▸ List.mem_map_of_mem Prod.fst hp)
  rw [markOwner_of_pre v hprek]
  obtain ⟨epre, epost, rfl, hepre, hec, hmark⟩ := findInList_decomp hes
  rw [hmark v]
  exact findCodeEntry_append_of_none hpre
    (findInList_append_of_none hepre hec)

theorem findInList_markUsed_ne {es : List CodeEntry} {c2 : String} (v : String)
    (hne : c2 ≠ c) :
    findInList (markUsed es c v) c2 = findInList es c2 := by
  induction es with
  | nil => rfl
  | cons x rest ih =>
    by_cases hx : x.code = c
    · have h2 : ¬ x.code = c2 := by
        rw [hx]
        exact fun h => hne h.symm
      have h1 : ¬ ({ x with used_by := some v } : CodeEntry).code = c2 := h2
      rw [markUsed, if_pos hx, findInList, findInList, if_neg h1, if_neg h2]
    · rw [markUsed, if_neg hx]
      by_cases hx2 : x.code = c2
      · rw [findInList, findInList, if_pos hx2, if_pos hx2]
      · rw [findInList, findInList, if_neg hx2, if_neg hx2, ih]

theorem findCodeEntry_markOwner_ne {c2 : String} {owner v : String}
    (hne : c2 ≠ c) :
    findCodeEntry (markOwner inv owner c v) c2 = findCodeEntry inv c2 := by
  induction inv with
  | nil => rfl
  | cons p rest ih =>
    obtain ⟨k, entries⟩ := p
    by_cases hk : k = owner
    · subst hk
      simp only [markOwner, if_pos rfl, findCodeEntry]
      rw [findInList_markUsed_ne v hne]
    · simp only [markOwner, if_neg hk, findCodeEntry]
      cases findInList entries c2 with
      | some e => rfl
      | none => exact ih

theorem getCount_setCount_self (st : StatsData) (u : String) (v : Int) :
    getCount (setCount st u v) u = some v := by
  induction st with
  | nil => simp [setCount, getCount]
  | cons p rest ih =>
    obtain ⟨k, w⟩ := p
    by_cases hk : k = u
    · simp [setCount, hk, getCount]
    · simp [setCount, hk, getCount, ih]

theorem getCount_setCount_ne (st : StatsData) {u k : String} (v : Int)
    (h : k ≠ u) : getCount (setCount st u v) k = getCount st k := by
  induction st with
  | nil =>
    simp only [setCount, getCount]
    rw [if_neg (fun he : u = k => h he.symm)]
  | cons p rest ih =>
    obtain ⟨k2, w⟩ := p
    by_cases hk : k2 = u
    · subst hk
      rw [setCount, if_pos rfl, getCount, getCount,
        if_neg (fun he : k2 = k => h he.symm), if_neg (fun he : k2 = k => h he.symm)]
    · rw [setCount, if_neg hk]
      by_cases hk2 : k2 = k
      · rw [getCount, getCount, if_pos hk2, if_pos hk2]
      · rw [getCount, getCount, if_neg hk2, if_neg hk2, ih]

theorem getCount_mem {k : String} {v : Int} (h : getCount st k = some v) :
    (k, v) ∈ st := by
  induction st with
  | nil => exact absurd h (by simp [getCount])
  | cons p rest ih =>
    obtain ⟨k2, w⟩ := p
    by_cases hk : k2 = k
    · subst hk
      rw [getCount, if_pos rfl] at h
      obtain rfl := Option.some_injective _ h
      simp
    · rw [getCount, if_neg hk] at h
      exact List.mem_cons_of_mem _ (ih h)

theorem mem_setCount {p : String × Int} {u : String} {v : Int}
    (h : p ∈ setCount st u v) : p ∈ st ∨ p = (u, v) := by
  induction st with
  | nil => simp [setCount] at h; simp [h]
  | cons q rest ih =>
    obtain ⟨k, w⟩ := q
    by_cases hk : k = u
    · subst hk
      simp only [setCount, if_pos rfl] at h
      rcases List.mem_cons.mp h with rfl | h'
      · exact Or.inr rfl
      · exact Or.inl (List.mem_cons_of_mem _ h')
    · simp only [setCount, if_neg hk] at h
      rcases List.mem_cons.mp h with rfl | h'
      · exact Or.inl (by simp)
      · rcases ih h' with h'' | h''
        · exact Or.inl (List.mem_cons_of_mem _ h'')
        · exact Or.inr h''

theorem validate_vOk_inv {owner : String} {e : CodeEntry}
    (h : validate inv c u = .vOk owner e) :
    findCodeEntry inv c = some (owner, e) ∧ e.used_by = none ∧ u ≠ owner := by
  unfold validate at h
  cases hf : findCodeEntry inv c with
  | none => rw [hf] at h; exact Validation.noConfusion h
  | some p =>
    obtain ⟨uid, e'⟩ := p
    rw [hf] at h
    by_cases hu : e'.used_by.isSome = true
    · simp [hu] at h
    · by_cases heq : u = uid
      · simp [hu, heq] at h
      · simp only [hu, heq, if_false, Bool.false_eq_true, if_neg] at h
        obtain ⟨rfl, rfl⟩ : uid = owner ∧ e' = e := by
          cases h
          exact ⟨rfl, rfl⟩
        exact ⟨rfl, Option.not_isSome_iff_eq_none.mp (by simp [hu]), heq⟩

end StructureLemmas

theorem on_submit_invitesFile_cases (c u : String) (ρ : Nat → Bool)
    (inv : InvitesData) (st : StatsData) (q : Int) (fail : FailPoint) :
    (on_submit c u ρ inv st q fail).invitesFile = inv ∨
    ∃ owner e, validate inv c u = .vOk owner e ∧
      (on_submit c u ρ inv st q fail).invitesFile = markOwner inv owner c u := by
  rcases hv : validate inv c u with _ | _ | _ | ⟨owner, e⟩
  · exact Or.inl (by cases fail <;> simp [on_submit, rejectWith, handleException, hv])
  · exact Or.inl (by cases fail <;> simp [on_submit, rejectWith, handleException, hv])
  · exact Or.inl (by cases fail <;> simp [on_submit, rejectWith, handleException, hv])
  · cases fail
    case noFail => exact Or.inr ⟨owner, e, rfl,
      by simp [on_submit, commitRun, hv]⟩
    case atSleep => exact Or.inl (by simp [on_submit, handleException, hv])
    case atLoad => exact Or.inl (by simp [on_submit, handleException, hv])
    case atRejectSend => exact Or.inr ⟨owner, e, rfl,
      by simp [on_submit, commitRun, handleException, hv]⟩
    case atGrant =>
      by_cases hr : (grantRoleFor ρ ((getCount st u).getD 0 + 1)).isSome = true
      · exact Or.inl (by simp [on_submit, commitRun, handleException, hv, hr])
      · exact Or.inr ⟨owner, e, rfl,
          by simp [on_submit, commitRun, handleException, hv, hr]⟩
    case atSaveInvites =>
      exact Or.inl (by simp [on_submit, commitRun, handleException, hv])
    case atSaveStats =>
      exact Or.inr ⟨owner, e, rfl, by simp [on_submit, commitRun, handleException, hv]⟩
    case atSuccessSend => exact Or.inr ⟨owner, e, rfl,
      by simp [on_submit, commitRun, handleException, hv]⟩

theorem on_submit_statsFile_cases (c u : String) (ρ : Nat → Bool)
    (inv : InvitesData) (st : StatsData) (q : Int) (fail : FailPoint) :
    (on_submit c u ρ inv st q fail).statsFile = st ∨
    ∃ owner e, validate inv c u = .vOk owner e ∧
      (on_submit c u ρ inv st q fail).statsFile
        = setCount st u ((getCount st u).getD 0 + 1) := by
  rcases hv : validate inv c u with _ | _ | _ | ⟨owner, e⟩
  · exact Or.inl (by cases fail <;> simp [on_submit, rejectWith, handleException, hv])
  · exact Or.inl (by cases fail <;> simp [on_submit, rejectWith, handleException, hv])
  · exact Or.inl (by cases fail <;> simp [on_submit, rejectWith, handleException, hv])
  · cases fail
    case noFail => exact Or.inr ⟨owner, e, rfl,
      by simp [on_submit, commitRun, hv]⟩
    case atSleep => exact Or.inl (by simp [on_submit, handleException, hv])
    case atLoad => exact Or.inl (by simp [on_submit, handleException, hv])
    case atRejectSend => exact Or.inr ⟨owner, e, rfl,
      by simp [on_submit, commitRun, handleException, hv]⟩
    case atGrant =>
      by_cases hr : (grantRoleFor ρ ((getCount st u).getD 0 + 1)).isSome = true
      · exact Or.inl (by simp [on_submit, commitRun, handleException, hv, hr])
      · exact Or.inr ⟨owner, e, rfl,
          by simp [on_submit, commitRun, handleException, hv, hr]⟩
    case atSaveInvites =>
      exact Or.inl (by simp [on_submit, commitRun, handleException, hv])
    case atSaveStats =>
      exact Or.inl (by simp [on_submit, commitRun, handleException, hv])
    case atSuccessSend => exact Or.inr ⟨owner, e, rfl,
      by simp [on_submit, commitRun, handleException, hv]⟩

theorem on_submit_committed_inv {c u : String} {ρ : Nat → Bool}
    {inv : InvitesData} {st : StatsData} {q : Int} {n : Int}
    (h : (on_submit c u ρ inv st q .noFail).outcome = .committed n) :
    ∃ owner e, validate inv c u = .vOk owner e ∧
      n = (getCount st u).getD 0 + 1 ∧
      (on_submit c u ρ inv st q .noFail).invitesFile = markOwner inv owner c u ∧
      (on_submit c u ρ inv st q .noFail).statsFile
        = setCount st u ((getCount st u).getD 0 + 1) := by
  rw [on_submit_noFail_eq] at h ⊢
  rcases hv : validate inv c u with _ | _ | _ | ⟨owner, e⟩ <;> rw [hv] at h <;>
    simp at h
  exact ⟨owner, e, rfl, h.symm, rfl, rfl⟩

theorem pre_keys_ne {pre post : InvitesData} {owner : String}
    {es : List CodeEntry}
    (hk : ((pre ++ (owner, es) :: post).map Prod.fst).Nodup) :
    ∀ p ∈ pre, p.1 ≠ owner := by
  intro p hp he
  rw [List.map_append] at hk
  exact List.disjoint_of_nodup_append hk
    (he ▸ List.mem_map_of_mem Prod.fst hp) (by simp)

/-- C5: once a code's `usedBy` is set it never changes. A successful
redemption is followed, on the same code, by `AlreadyUsed` with both
persisted files exactly as the first attempt left them; and for every
attempt on any ledger, with any outcome and any injected failure, a code
already observed as used keeps exactly the same redeemer afterwards (the
set of used codes only grows and no code is re-assigned). -/
theorem C5_no_double_redemption (inv : InvitesData) (st : StatsData)
    (c u1 : String) (ρ1 : Nat → Bool) (q1 : Int) (n : Int)
    (hk : (inv.map Prod.fst).Nodup)
    (h1 : (on_submit c u1 ρ1 inv st q1 .noFail).outcome = .committed n) :
    (∀ (u2 : String) (ρ2 : Nat → Bool) (q2 : Int),
      (on_submit c u2 ρ2 (on_submit c u1 ρ1 inv st q1 .noFail).invitesFile
        (on_submit c u1 ρ1 inv st q1 .noFail).statsFile q2 .noFail).outcome
          = .alreadyUsed ∧
      (on_submit c u2 ρ2 (on_submit c u1 ρ1 inv st q1 .noFail).invitesFile
        (on_submit c u1 ρ1 inv st q1 .noFail).statsFile q2 .noFail).invitesFile
          = (on_submit c u1 ρ1 inv st q1 .noFail).invitesFile ∧
      (on_submit c u2 ρ2 (on_submit c u1 ρ1 inv st q1 .noFail).invitesFile
        (on_submit c u1 ρ1 inv st q1 .noFail).statsFile q2 .noFail).statsFile
          = (on_submit c u1 ρ1 inv st q1 .noFail).statsFile) ∧
    (∀ (inv2 : InvitesData) (st2 : StatsData) (c2 c3 u3 : String)
        (ρ3 : Nat → Bool) (q3 : Int) (fail : FailPoint) (uid : String)
        (e : CodeEntry),
      findCodeEntry inv2 c2 = some (uid, e) → e.used_by.isSome = true →
      findCodeEntry ((on_submit c3 u3 ρ3 inv2 st2 q3 fail).invitesFile) c2
        = some (uid, e)) := by
  obtain ⟨owner, e, hv, hneq, hinv, hst⟩ := on_submit_committed_inv h1
  obtain ⟨hfind, hunused, hne⟩ := validate_vOk_inv hv
  constructor
  · intro u2 ρ2 q2
    have hfound2 : findCodeEntry
        ((on_submit c u1 ρ1 inv st q1 .noFail).invitesFile) c
        = some (owner, { e with used_by := some u1 }) := by
      rw [hinv]
      exact findCodeEntry_markOwner u1 hk hfind
    have hval2 : validate ((on_submit c u1 ρ1 inv st q1 .noFail).invitesFile)
        c u2 = .vAlreadyUsed := validate_alreadyUsed hfound2 rfl
    rw [on_submit_noFail_eq, hval2]
    exact ⟨rfl, rfl, rfl⟩
  · intro inv2 st2 c2 c3 u3 ρ3 q3 fail uid e2 hf hu
    rcases on_submit_invitesFile_cases c3 u3 ρ3 inv2 st2 q3 fail with
      h | ⟨ow, e3, hv3, h⟩
    · rw [h]
      exact hf
    · rw [h]
      obtain ⟨hfind3, hun3, _⟩ := validate_vOk_inv hv3
      by_cases hcc : c2 = c3
      · subst hcc
        rw [hf] at hfind3
        obtain ⟨rfl, rfl⟩ : uid = ow ∧ e2 = e3 := by
          have h4 := Option.some_injective _ hfind3
          exact ⟨congrArg Prod.fst h4, congrArg Prod.snd h4⟩
        rw [hun3] at hu
        exact absurd hu (by simp)
      · rw [findCodeEntry_markOwner_ne hcc]
        exact hf

/-- C5 witness: after `B` redeems `UD-111111`, a later attempt by `C` on
the same code is rejected as already used and both persisted files are
exactly as the first commit left them. -/
theorem C5_no_double_redemption_witness :
    (on_submit "UD-111111" "C" rhoAll
      (on_submit "UD-111111" "B" rhoAll sampleInvites [] 0 .noFail).invitesFile
      (on_submit "UD-111111" "B" rhoAll sampleInvites [] 0 .noFail).statsFile
      0 .noFail).outcome = .alreadyUsed ∧
    (on_submit "UD-111111" "C" rhoAll
      (on_submit "UD-111111" "B" rhoAll sampleInvites [] 0 .noFail).invitesFile
      (on_submit "UD-111111" "B" rhoAll sampleInvites [] 0 .noFail).statsFile
      0 .noFail).invitesFile
        = (on_submit "UD-111111" "B" rhoAll sampleInvites [] 0 .noFail).invitesFile ∧
    (on_submit "UD-111111" "C" rhoAll
      (on_submit "UD-111111" "B" rhoAll sampleInvites [] 0 .noFail).invitesFile
      (on_submit "UD-111111" "B" rhoAll sampleInvites [] 0 .noFail).statsFile
      0 .noFail).statsFile
        = (on_submit "UD-111111" "B" rhoAll sampleInvites [] 0 .noFail).statsFile :=
  (C5_no_double_redemption sampleInvites [] "UD-111111" "B" rhoAll 0 1
    (by decide) (by decide)).1 "C" rhoAll 0

/-- C9: a successful redemption changes exactly one code entry — the
matched one, whose `used_by` goes from unset to the redeemer — and exactly
the redeemer's count; every other code entry of every owner (same owners,
same positions) and every other user's count are unchanged in the
persisted snapshot. -/
theorem C9_frame (inv : InvitesData) (st : StatsData) (c u : String)
    (ρ : Nat → Bool) (q : Int) (n : Int)
    (hk : (inv.map Prod.fst).Nodup)
    (h1 : (on_submit c u ρ inv st q .noFail).outcome = .committed n) :
    ∃ pre post owner epre epost e,
      inv = pre ++ (owner, epre ++ e :: epost) :: post ∧
      e.code = c ∧ e.used_by = none ∧
      (on_submit c u ρ inv st q .noFail).invitesFile
        = pre ++ (owner, epre ++ { e with used_by := some u } :: epost) :: post ∧
      getCount (on_submit c u ρ inv st q .noFail).statsFile u
        = some ((getCount st u).getD 0 + 1) ∧
      (∀ k, k ≠ u → getCount (on_submit c u ρ inv st q .noFail).statsFile k
        = getCount st k) := by
  obtain ⟨owner, e, hv, hneq, hinv, hst⟩ := on_submit_committed_inv h1
  obtain ⟨hfind, hunused, hne⟩ := validate_vOk_inv hv
  obtain ⟨pre, es, post, hdec, hpre, hes⟩ := findCodeEntry_decomp hfind
  obtain ⟨epre, epost, hdec2, hepre, hec, hmark⟩ := findInList_decomp hes
  subst hdec2
  have hprek : ∀ p ∈ pre, p.1 ≠ owner := pre_keys_ne (hdec ▸ hk)
  refine ⟨pre, post, owner, epre, epost, e, hdec, hec, hunused, ?_, ?_, ?_⟩
  · rw [hinv, hdec, markOwner_of_pre u hprek, hmark u]
  · rw [hst, getCount_setCount_self]
  · intro k hkne
    rw [hst, getCount_setCount_ne _ _ hkne]

/-- C9 witness: the concrete decomposition for `B` redeeming `A`'s only
code on the sample ledger. -/
theorem C9_frame_witness :
    ∃ pre post owner epre epost e,
      sampleInvites = pre ++ (owner, epre ++ e :: epost) :: post ∧
      e.code = "UD-111111" ∧ e.used_by = none ∧
      (on_submit "UD-111111" "B" rhoAll sampleInvites [] 0 .noFail).invitesFile
        = pre ++ (owner, epre ++ { e with used_by := some "B" } :: epost) :: post ∧
      getCount (on_submit "UD-111111" "B" rhoAll sampleInvites [] 0 .noFail).statsFile "B"
        = some ((getCount [] "B").getD 0 + 1) ∧
      (∀ k, k ≠ "B" →
        getCount (on_submit "UD-111111" "B" rhoAll sampleInvites [] 0 .noFail).statsFile k
          = getCount [] k) :=
  C9_frame sampleInvites [] "UD-111111" "B" rhoAll 0 1 (by decide) (by decide)

/-- C10: a redeemer absent from the stats table is treated as count 0, so
a successful first redemption yields count exactly 1 (stored for them) and
dispatches the tier-1 grant; stored counts stay positive across any
attempt, and no user's count ever decreases. -/
theorem C10_first_redemption (inv : InvitesData) (st : StatsData) (c u : String)
    (ρ : Nat → Bool) (q : Int) :
    (getCount st u = none → ∀ n : Int,
      (on_submit c u ρ inv st q .noFail).outcome = .committed n →
      n = 1 ∧
      getCount (on_submit c u ρ inv st q .noFail).statsFile u = some 1 ∧
      (ρ FIRST_INVITE_ROLE_ID = true →
        grantsOf (on_submit c u ρ inv st q .noFail).trace
          = [(FIRST_INVITE_ROLE_ID, u)])) ∧
    ((∀ p ∈ st, 0 < p.2) → ∀ fail : FailPoint,
      ∀ p ∈ (on_submit c u ρ inv st q fail).statsFile, 0 < p.2) ∧
    (∀ (fail : FailPoint) (k : String),
      (getCount st k).getD 0
        ≤ (getCount (on_submit c u ρ inv st q fail).statsFile k).getD 0) := by
  refine ⟨fun h0 n hn => ?_, fun hpos fail p hp => ?_, fun fail k => ?_⟩
  · obtain ⟨owner, e, hv, hneq, hinv, hst⟩ := on_submit_committed_inv hn
    have hcnt : (getCount st u).getD 0 = 0 := by rw [h0]; rfl
    refine ⟨by omega, by rw [hst, getCount_setCount_self, hcnt]; norm_num, ?_⟩
    intro hρ1
    rw [on_submit_noFail_eq, hv, grantsOf_append, grantsOf_append]
    simp [grantsOf, grantRoleFor, hcnt, hρ1]
  · rcases on_submit_statsFile_cases c u ρ inv st q fail with h | ⟨ow, e, hv, h⟩
    · rw [h] at hp
      exact hpos p hp
    · rw [h] at hp
      rcases mem_setCount hp with h' | h'
      · exact hpos p h'
      · subst h'
        have : 0 ≤ (getCount st u).getD 0 := by
          cases hgc : getCount st u with
          | none => simp
          | some v => simpa using le_of_lt (hpos (u, v) (getCount_mem hgc))
        simpa using by omega
  · rcases on_submit_statsFile_cases c u ρ inv st q fail with h | ⟨ow, e, hv, h⟩
    · rw [h]
    · rw [h]
      by_cases hkne : k = u
      · subst hkne
        rw [getCount_setCount_self]
        simp
      · rw [getCount_setCount_ne _ _ hkne]

/-- C10 witness: `B` is absent from the empty stats table; the first
successful redemption stores count 1, dispatches the tier-1 grant, and the
stored count did not decrease. -/
theorem C10_first_redemption_witness :
    ((1 : Int) = 1 ∧
      getCount (on_submit "UD-111111" "B" rhoAll sampleInvites [] 0 .noFail).statsFile
        "B" = some 1 ∧
      (rhoAll FIRST_INVITE_ROLE_ID = true →
        grantsOf (on_submit "UD-111111" "B" rhoAll sampleInvites [] 0 .noFail).trace
          = [(FIRST_INVITE_ROLE_ID, "B")])) ∧
    (getCount [] "B").getD 0
      ≤ (getCount (on_submit "UD-111111" "B" rhoAll sampleInvites [] 0
          .noFail).statsFile "B").getD 0 :=
  ⟨(C10_first_redemption sampleInvites [] "UD-111111" "B" rhoAll 0).1 rfl 1
      (by decide),
    (C10_first_redemption sampleInvites [] "UD-111111" "B" rhoAll 0).2.2
      .noFail "B"⟩

end UnderDogs
